import Mathlib

/-!
# SpindleFlow — verification of the orchestration core

A shallow embedding of the SpindleFlow multi-agent orchestration engine:
the MCP tool registry (`src/mcp/registry.ts`), the tool-calling loop
(`src/llm/tool-aware-provider.ts`), the sequential and parallel workflow
strategies (`src/orchestrator/sequential.ts`, `src/orchestrator/parallel.ts`),
the workflow dispatcher (`src/orchestrator/engine.ts`), the prompt builder
(`src/prompt/builder.ts`) and the sandboxed code-execution tool
(`src/mcp/tools/code-execution.ts`).

JavaScript runtime values that flow through untyped positions (JSON.parse
output, property access that may yield `undefined`) are modelled by the
`Json` inductive below, with `Json.undefJs` standing for JavaScript's
`undefined`.  Host-language builtins (`JSON.parse`, the V8 isolate, the
LLM backend, the filesystem) are opaque parameters of the definitions that
use them.  Wall-clock timestamps (`Date.now()`) are modelled as `0` or as
explicit parameters; no claim depends on them.
-/

namespace SpindleFlow

/-- Model of a JavaScript/JSON runtime value.  `undefJs` models JavaScript's
`undefined` (never produced by `JSON.parse`, but produced by property
access on an object lacking the key). -/
inductive Json where
  | null : Json
  | undefJs : Json
  | bool (b : Bool) : Json
  | num (n : Int) : Json
  | str (s : String) : Json
  | arr (elems : List Json) : Json
  | obj (fields : List (String × Json)) : Json

/-- First binding of a key in an object's field list (JS object keys are
unique after parsing; first match suffices). -/
def jsonLookup (fields : List (String × Json)) (k : String) : Option Json :=
  match fields with
  | [] => none
  | (k', v) :: rest => if k' = k then some v else jsonLookup rest k

/-- Model of JavaScript property access `v[k]`: throws a TypeError on
`null`/`undefined` (the `Except.error` case), yields `undefined` for a
missing key or a non-object receiver. -/
def jsGet (v : Json) (k : String) : Except Unit Json :=
  match v with
  | .null => .error ()
  | .undefJs => .error ()
  | .obj fields =>
    match jsonLookup fields k with
    | some x => .ok x
    | none => .ok .undefJs
  | _ => .ok .undefJs

/-- JavaScript falsiness of a runtime value (used to model `x || {}`). -/
def jsFalsy (v : Json) : Bool :=
  match v with
  | .null => true
  | .undefJs => true
  | .bool b => !b
  | .num n => n = 0
  | .str s => s = ""
  | _ => false

/-- Model of JavaScript string coercion as used in template literals
(only the `str` and `undefJs` cases are exercised by the code paths we
verify; the rest follow the JS `String(...)` coercion loosely). -/
def jsToDisplay (v : Json) : String :=
  match v with
  | .null => "null"
  | .undefJs => "undefined"
  | .bool b => if b then "true" else "false"
  | .num n => toString n
  | .str s => s
  | .arr _ => ""
  | .obj _ => "[object Object]"

mutual

/-- Model of `JSON.stringify` (whitespace/indentation formatting elided;
no claim inspects the rendered text). -/
def jsonStringify : Json → String
  | .null => "null"
  | .undefJs => "null"
  | .bool b => if b then "true" else "false"
  | .num n => toString n
  | .str s => "\"" ++ s ++ "\""
  | .arr elems => "[" ++ jsonStringifyList elems ++ "]"
  | .obj fields => "\x7b" ++ jsonStringifyFields fields ++ "\x7d"

def jsonStringifyList : List Json → String
  | [] => ""
  | [x] => jsonStringify x
  | x :: rest => jsonStringify x ++ "," ++ jsonStringifyList rest

def jsonStringifyFields : List (String × Json) → String
  | [] => ""
  | [(k, v)] => "\"" ++ k ++ "\":" ++ jsonStringify v
  | (k, v) :: rest => "\"" ++ k ++ "\":" ++ jsonStringify v ++ "," ++ jsonStringifyFields rest

end

/-! ## List-of-characters string scanning

JavaScript string builtins used by the source (`String.prototype.trim`,
regex search, substring search) are modelled by executable functions over
`List Char` so that concrete instances evaluate inside the kernel. -/

/-- The text after the first occurrence of `needle`, if any
(scanning left to right, as a JS regex engine does). -/
def afterSub (needle : List Char) : List Char → Option (List Char)
  | [] => if needle.isPrefixOf ([] : List Char) then some [] else none
  | c :: t =>
    if needle.isPrefixOf (c :: t) then some ((c :: t).drop needle.length)
    else afterSub needle t

/-- The text before the first occurrence of `needle`, if any. -/
def beforeSub (needle : List Char) : List Char → Option (List Char)
  | [] => if needle.isPrefixOf ([] : List Char) then some [] else none
  | c :: t =>
    if needle.isPrefixOf (c :: t) then some []
    else (beforeSub needle t).map (c :: ·)

/-- Whether `needle` occurs as a contiguous substring of `hay`. -/
def containsSubB (hay needle : List Char) : Bool :=
  match hay with
  | [] => needle.isEmpty
  | _ :: t => needle.isPrefixOf hay || containsSubB t needle

/-- ASCII whitespace, as trimmed by JavaScript `String.prototype.trim`
on the inputs we model. -/
def wsChar (c : Char) : Bool :=
  c = ' ' || c = '\n' || c = '\t' || c = '\r'

/-- Remove trailing whitespace. -/
def trimRight (s : List Char) : List Char :=
  (s.reverse.dropWhile wsChar).reverse

/-- Model of JavaScript `s.trim()`. -/
def jsTrim (s : List Char) : List Char :=
  trimRight (s.dropWhile wsChar)

/-- `s.trim()` lifted to `String`. -/
def jsTrimS (s : String) : String :=
  ⟨jsTrim s.data⟩

/-! ## MCP data model (`src/mcp/schema.ts`) -/

/-- `MCPToolResult` from `src/mcp/schema.ts`: `result` and `error` are
optional fields; `Option.none` models an absent field. -/
structure MCPToolResult where
  success : Bool
  result : Option Json := none
  error : Option String := none
  executionTime : Nat

/-- `MCPToolCall` from `src/mcp/schema.ts`.  `toolName` is declared
`string` but at runtime holds whatever `parsed.tool` was, including
`undefined`; hence `Json`. -/
structure MCPToolCall where
  toolName : Json
  parameters : Json
  timestamp : Nat

/-- `MCPTool` (the schema object) from `src/mcp/schema.ts`. -/
structure MCPTool where
  name : String
  description : String
  parameters : Json
  executor : String

/-- A tool provider: `getSchema()` and `execute(parameters)`.  A thrown
exception from `execute` is the `Except.error` case. -/
structure MCPToolProvider where
  schema : MCPTool
  execute : Json → Except String MCPToolResult

/-! ## MCPToolRegistry (`src/mcp/registry.ts`) -/

/-- The registry's name-indexed `Map`; `register` keys by
`getSchema().name`, so keys are strings. -/
def MCPToolRegistry := List (String × MCPToolProvider)

/-- First binding for a string key (models `Map.get` on a map whose
entries were set by `register`). -/
def regLookupStr : MCPToolRegistry → String → Option MCPToolProvider
  | [], _ => none
  | (k, p) :: rest, name => if k = name then some p else regLookupStr rest name

/-- `Map.get` called with an arbitrary runtime value: SameValueZero
equality means a non-string never matches a string key. -/
def regGet (reg : MCPToolRegistry) (name : Json) : Option MCPToolProvider :=
  match name with
  | .str s => regLookupStr reg s
  | _ => none

/-- `MCPToolRegistry.executeTool` from `src/mcp/registry.ts` (lines
36–85): unknown name returns a not-found failure with `executionTime`
0; a provider exception is caught and returned as a failure with
`executionTime` 0; a provider-returned result is passed through. -/
def executeTool (reg : MCPToolRegistry) (toolName : Json) (parameters : Json) :
    MCPToolResult :=
  match regGet reg toolName with
  | none =>
    { success := false
      error := some ("Tool " ++ jsToDisplay toolName ++ " not found")
      executionTime := 0 }
  | some tool =>
    match tool.execute parameters with
    | .ok result => result
    | .error e =>
      { success := false
        error := some e
        executionTime := 0 }

/-! ## ToolAwareLLMProvider (`src/llm/tool-aware-provider.ts`) -/

/-- The LLM backend contract: `generate({system, user, temperature?}) ->
text`, failure only via thrown exception (`Except.error`).  The
`temperature` argument is elided (no code path in scope depends on it). -/
def LLMBackend := String → String → Except String String

/-- The content of the first `<tool_call>...</tool_call>` block of a
response, modelling the regex scan
`response.match(/<tool_call>(.*?)<\/tool_call>/s)`: the match begins at
the first open tag and extends to the first close tag after it. -/
def extractBlock (response : String) : Option String :=
  match afterSub "<tool_call>".data response.data with
  | none => none
  | some rest =>
    match beforeSub "</tool_call>".data rest with
    | none => none
    | some content => some ⟨content⟩

/-- The value returned by `parseToolCall` when the block is present and
`JSON.parse` succeeded: `{toolName: parsed.tool, parameters:
parsed.parameters || {}}`.  `toolName` is `Json.undefJs` when the parsed
object has no `tool` field. -/
structure RawToolCall where
  toolName : Json
  parameters : Json

/-- `ToolAwareLLMProvider.parseToolCall` (lines 127–149): no delimited
block, a `JSON.parse` exception, or a property-access TypeError (the
parsed value being `null`) all yield `none`; otherwise the parsed
`tool`/`parameters` fields are returned, with `parameters || {}`
defaulting to an empty object.  `jsonParse` is the opaque model of
`JSON.parse` (`none` = parse exception). -/
def parseToolCall (jsonParse : String → Option Json) (response : String) :
    Option RawToolCall :=
  match extractBlock response with
  | none => none
  | some content =>
    match jsonParse (jsTrimS content) with
    | none => none
    | some parsed =>
      match jsGet parsed "tool" with
      | .error _ => none
      | .ok toolVal =>
        match jsGet parsed "parameters" with
        | .error _ => none
        | .ok paramsVal =>
          some { toolName := toolVal
                 parameters := if jsFalsy paramsVal then .obj [] else paramsVal }

/-- `buildToolPrompt` (lines 100–127): the base system prompt followed by
one rendered section per tool and the fixed tool-call instructions;
unchanged when the tool list is empty. -/
def buildToolPrompt (baseSystem : String) (tools : List MCPTool) : String :=
  if tools.length = 0 then baseSystem
  else
    let toolsSection := tools.foldl
      (fun acc tool =>
        acc ++ "Tool: " ++ tool.name ++ "\n" ++
        "Description: " ++ tool.description ++ "\n" ++
        "Parameters: " ++ jsonStringify tool.parameters ++ "\n" ++ "\n")
      "\n\nYou have access to the following tools:\n\n"
    baseSystem ++ toolsSection ++
      "\nTo use a tool, respond with ONLY this format (no other text):\n<tool_call>\n\x7b\n  \"tool\": \"tool_name\",\n  \"parameters\": \x7b ... \x7d\n\x7d\n</tool_call>\n\nWhen you have the information you need from tools, respond normally without the tool_call tags.\n"

/-- Rendering of an `MCPToolResult` as `JSON.stringify` of the JS object
(fields holding `undefined` are omitted by `JSON.stringify`). -/
def stringifyToolResult (r : MCPToolResult) : String :=
  jsonStringify (.obj
    ([("success", Json.bool r.success)] ++
     (match r.result with | some v => [("result", v)] | none => []) ++
     (match r.error with | some e => [("error", Json.str e)] | none => []) ++
     [("executionTime", Json.num r.executionTime)]))

/-- `buildToolResultPrompt` (lines 151–166): appends a rendered
`<tool_result>` block and a continuation instruction. -/
def buildToolResultPrompt (previousPrompt : String) (tc : RawToolCall)
    (result : MCPToolResult) : String :=
  previousPrompt ++ "\n\n<tool_result>\nTool: " ++ jsToDisplay tc.toolName ++
    "\nParameters: " ++ jsonStringify tc.parameters ++
    "\nResult: " ++ stringifyToolResult result ++
    "\n</tool_result>\n\nBased on this tool result, provide your final response (without using more tools unless necessary)."

/-- `params.maxToolCalls || 5`: any JS-falsy bound (absent, or 0) is
replaced by the default 5. -/
def effectiveMaxIterations (maxToolCalls : Option Nat) : Nat :=
  match maxToolCalls with
  | none => 5
  | some 0 => 5
  | some n => n

/-- Observable outcome of `generateWithTools`.  The source returns
`{output, toolCalls}` on success and throws on failure (`result`'s
`Except.error` holds the thrown message); `toolCalls` is the audit list
accumulated when the loop ended (the source's local `toolCalls` array —
on a throw it is the internal state at that point, not part of the
thrown value), and `backendCalls` counts calls made to
`baseLLM.generate`. -/
structure LoopOutcome where
  result : Except String String
  toolCalls : List MCPToolCall
  backendCalls : Nat

/-- One `while iteration < maxIterations` pass of `generateWithTools`
(lines 35–98), with `fuel` the number of remaining iterations.  Each
pass: call the backend; if no tool call parses, return the response as
final; otherwise execute the tool through the registry, append the call
to the audit list, extend the prompt with the rendered result, and
continue.  Exhausted fuel models the post-loop
`throw new Error("Max tool call iterations (...) reached")`. -/
def gwtLoop (backend : LLMBackend) (jsonParse : String → Option Json)
    (reg : MCPToolRegistry) (systemWithTools : String) (maxIter : Nat) :
    Nat → String → List MCPToolCall → Nat → LoopOutcome
  | 0, _, acc, calls =>
    { result := .error ("Max tool call iterations (" ++ toString maxIter ++ ") reached")
      toolCalls := acc
      backendCalls := calls }
  | fuel + 1, currentPrompt, acc, calls =>
    match backend systemWithTools currentPrompt with
    | .error e => { result := .error e, toolCalls := acc, backendCalls := calls + 1 }
    | .ok response =>
      match parseToolCall jsonParse response with
      | none => { result := .ok response, toolCalls := acc, backendCalls := calls + 1 }
      | some tc =>
        let result := executeTool reg tc.toolName tc.parameters
        gwtLoop backend jsonParse reg systemWithTools maxIter fuel
          (buildToolResultPrompt currentPrompt tc result)
          (acc ++ [{ toolName := tc.toolName, parameters := tc.parameters, timestamp := 0 }])
          (calls + 1)

/-- Parameters of `generateWithTools` (`ToolAwareLLMParams`). -/
structure ToolAwareLLMParams where
  system : String
  user : String
  tools : List MCPTool := []
  maxToolCalls : Option Nat := none

/-- `ToolAwareLLMProvider.generateWithTools` (lines 20–98). -/
def generateWithTools (params : ToolAwareLLMParams) (backend : LLMBackend)
    (jsonParse : String → Option Json) (reg : MCPToolRegistry) : LoopOutcome :=
  let maxIter := effectiveMaxIterations params.maxToolCalls
  gwtLoop backend jsonParse reg (buildToolPrompt params.system params.tools)
    maxIter maxIter params.user [] 0

/-! ## ContextStore and PromptBuilder (`src/context/store.ts`,
`src/prompt/builder.ts`) -/

/-- `TimelineEntry` from `src/context/store.ts` (also the shape of the
per-branch result objects in `src/orchestrator/parallel.ts`). -/
structure TimelineEntry where
  agentId : String
  role : String
  output : String
  startedAt : Nat
  endedAt : Nat

/-- `ContextStore` from `src/context/store.ts`; `outputs` is a JS object
(string-keyed record), modelled as an association list updated in
place. -/
structure ContextStore where
  userInput : String
  outputs : List (String × String)
  timeline : List TimelineEntry

/-- Agent definition.  Modelled from the spec: `src/agents/agent.ts` is
not among the provided sources; the spec gives `{id, role, goal,
tools?, tool_config?}` (the per-tool configuration overrides are not
consumed by any code path in scope and are elided). -/
structure Agent where
  id : String
  role : String
  goal : String
  tools : List String := []

/-- The rendered block for one prior execution record:
`\n--- ${entry.role} (${entry.agentId}) ---\n${entry.output}\n`. -/
def renderEntry (e : TimelineEntry) : String :=
  "\n--- " ++ e.role ++ " (" ++ e.agentId ++ ") ---\n" ++ e.output ++ "\n"

/-- A system/user prompt pair. -/
structure Prompt where
  system : String
  user : String

/-- `buildPrompt` from `src/prompt/builder.ts` (lines 4–34): the system
text frames role and goal; the user text is the user input followed,
when the timeline is non-empty, by the `Previous agent outputs:`
section with one block per record in timeline order; both are
`.trim()`ed. -/
def buildPrompt (agent : Agent) (ctx : ContextStore) : Prompt :=
  { system := jsTrimS ("\nYou are acting as: " ++ agent.role ++
      "\n\nYour goal:\n" ++ agent.goal ++
      "\n\nFollow the goal strictly. Be concise, clear, and relevant.\n")
    user := jsTrimS ("User input:\n" ++ ctx.userInput ++ "\n" ++
      (if ctx.timeline.length > 0 then
        "\nPrevious agent outputs:\n" ++ String.join (ctx.timeline.map renderEntry)
      else "")) }

/-! ## Parallel workflow (`src/orchestrator/parallel.ts`) -/

/-- Agent registry.  Modelled from the spec: `src/agents/registry.ts` is
not among the provided sources; per the spec an unregistered agent id
is a fatal configuration error raised at first dereference, so
`getAgent` throws (`Except.error`) on an unknown id. -/
def AgentRegistry := List (String × Agent)

/-- Modelled from the spec: `AgentRegistry.getAgent` — lookup by id,
throwing on an unregistered id. -/
def getAgent : AgentRegistry → String → Except String Agent
  | [], agentId => .error ("Unknown agent id: " ++ agentId)
  | (k, a) :: rest, agentId => if k = agentId then .ok a else getAgent rest agentId

/-- JS object write `outputs[k] = v`: replaces the binding if the key
exists (keeping its position), otherwise appends. -/
def setOutput : List (String × String) → String → String → List (String × String)
  | [], k, v => [(k, v)]
  | (k', v') :: rest, k, v =>
    if k' = k then (k, v) :: rest else (k', v') :: setOutput rest k v

/-- Merging one result: `context.outputs[r.agentId] = r.output;
context.timeline.push(r)`. -/
def mergeEntry (ctx : ContextStore) (r : TimelineEntry) : ContextStore :=
  { ctx with
    outputs := setOutput ctx.outputs r.agentId r.output
    timeline := ctx.timeline ++ [r] }

/-- The per-branch async closure of `runParallelWorkflow` (lines 16–38):
resolve the agent, build a prompt against the shared pre-branch
context, call the backend, and package a result object.  No shared
state is mutated here; a thrown error rejects the branch promise. -/
def branchTask (reg : AgentRegistry) (ctx : ContextStore) (llm : LLMBackend)
    (agentId : String) : Except String TimelineEntry :=
  match getAgent reg agentId with
  | .error e => .error e
  | .ok agent =>
    let prompt := buildPrompt agent ctx
    match llm prompt.system prompt.user with
    | .error e => .error e
    | .ok output => .ok { agentId := agent.id, role := agent.role, output := output,
                          startedAt := 0, endedAt := 0 }

/-- The error projection used to model `Promise.all` rejection. -/
def errProj : Except String α → Option String
  | .error e => some e
  | .ok _ => none

/-- The error `Promise.all` rejects with: the first rejection in
completion order.  `sched` lists indices of tasks in the order they
complete; any indices it misses are scanned afterwards in array order,
so the result is `none` exactly when every task fulfilled. -/
def firstErrorBySched (tasks : List (Except String α)) : List Nat → Option String
  | [] => tasks.findSome? errProj
  | i :: rest =>
    match tasks.get? i with
    | some (.error e) => some e
    | _ => firstErrorBySched tasks rest

/-- The fulfilled values of a task list, in array-index order. -/
def okValues (tasks : List (Except String α)) : List α :=
  tasks.filterMap (fun t => match t with | .ok v => some v | .error _ => none)

/-- Model of `Promise.all(tasks)` under completion order `sched`: if
every task fulfils, the result array holds the values slot-by-slot in
input order (independent of `sched`); if any task rejects, the whole
join rejects. -/
def promiseAll (tasks : List (Except String α)) (sched : List Nat) :
    Except String (List α) :=
  match firstErrorBySched tasks sched with
  | some e => .error e
  | none => .ok (okValues tasks)

/-- `runParallelWorkflow` from `src/orchestrator/parallel.ts` (lines
16–68): fan out the branch tasks, join with `Promise.all`, merge the
branch results into the context in array (= branch-declaration) order,
then run the `then` agent against the merged context and merge its
result.  A rejected join or a thrown `then`-phase error propagates
(`some` error) leaving the context as it was at that point — the merge
loop is only reached after the join fulfils. -/
def runParallelWorkflow (branches : List String) (thenAgent : String)
    (reg : AgentRegistry) (llm : LLMBackend) (sched : List Nat)
    (ctx : ContextStore) : ContextStore × Option String :=
  match promiseAll (branches.map (branchTask reg ctx llm)) sched with
  | .error e => (ctx, some e)
  | .ok results =>
    let ctx1 := results.foldl mergeEntry ctx
    match getAgent reg thenAgent with
    | .error e => (ctx1, some e)
    | .ok finalAgent =>
      let finalPrompt := buildPrompt finalAgent ctx1
      match llm finalPrompt.system finalPrompt.user with
      | .error e => (ctx1, some e)
      | .ok finalOutput =>
        (mergeEntry ctx1 { agentId := finalAgent.id, role := finalAgent.role,
                           output := finalOutput, startedAt := 0, endedAt := 0 }, none)

/-! ## Workflow engine (`src/orchestrator/engine.ts`) -/

/-- `feedback_loop` configuration (from the workflow config schema). -/
structure FeedbackLoop where
  enabled : Bool
  max_iterations : Nat

/-- The `then` clause of a parallel workflow. -/
structure WorkflowThen where
  agent : String
  feedback_loop : Option FeedbackLoop := none

/-- One sequential step `{agent}`. -/
structure WorkflowStep where
  agent : String

/-- The workflow section of `RootConfig`.  `src/config/schema.ts` is not
among the provided sources; the field layout follows the spec's §6
(`type`, a `steps` list for sequential, `branches` and `then` for
parallel) and the fields `runWorkflow` dereferences. -/
structure WorkflowConfig where
  type : String
  steps : List WorkflowStep := []
  branches : List String := []
  thenCfg : WorkflowThen := { agent := "" }

/-- The root configuration object (only the `workflow` field is read by
`runWorkflow`). -/
structure RootConfig where
  workflow : WorkflowConfig

/-- `runSequentialWorkflow` from `src/orchestrator/sequential.ts` (the
second document of `src/unnamed/part_005`): a `for` loop over the
ordered step list; each iteration resolves the step agent, builds the
prompt against the current context, awaits the backend, and merges the
output (`context.outputs[agent.id] = output; context.timeline.push`)
before the next step starts.  The per-step body is the same
getAgent → buildPrompt → generate → result sequence as the parallel
branch closure, hence the reuse of `branchTask`; a thrown error
(unknown agent id or backend failure) aborts the loop, leaving the
merges of the steps already completed in place. -/
def runSequentialWorkflow (steps : List WorkflowStep) (reg : AgentRegistry)
    (llm : LLMBackend) (ctx : ContextStore) : ContextStore × Option String :=
  match steps with
  | [] => (ctx, none)
  | s :: rest =>
    match branchTask reg ctx llm s.agent with
    | .error e => (ctx, some e)
    | .ok r => runSequentialWorkflow rest reg llm (mergeEntry ctx r)

/-- Latest output recorded for an agent id. -/
def getOutput : List (String × String) → String → Option String
  | [], _ => none
  | (k, v) :: rest, agentId => if k = agentId then some v else getOutput rest agentId

/-- Modelled from the spec: `src/orchestrator/parallel-iterative.ts` is
not among the provided sources.  IterativeParallel strategy (§4.2):
repeats the parallel pattern, passing the `then` output through a
convergence check; terminates on convergence or budget exhaustion, and
exhaustion without convergence is not a failure. -/
def runIterativeParallelWorkflow (branches : List String) (thenAgent : String)
    (converged : String → Bool) (reg : AgentRegistry) (llm : LLMBackend)
    (sched : List Nat) : Nat → ContextStore → ContextStore × Option String
  | 0, ctx => (ctx, none)
  | n + 1, ctx =>
    match runParallelWorkflow branches thenAgent reg llm sched ctx with
    | (ctx1, some e) => (ctx1, some e)
    | (ctx1, none) =>
      if converged ((getOutput ctx1.outputs thenAgent).getD "") then (ctx1, none)
      else runIterativeParallelWorkflow branches thenAgent converged reg llm sched n ctx1

/-- `runWorkflow` from `src/orchestrator/engine.ts` (lines 11–67): two
guards on `config.workflow.type` (`"sequential"`, then `"parallel"`
with the feedback-loop sub-dispatch via `feedbackLoop?.enabled`); the
source writes them as two consecutive `if` statements whose string
conditions are mutually exclusive, which is the `if`/`else if` below.
There is no `else`: any other `type` falls through and the function
returns having done nothing. -/
def runWorkflow (config : RootConfig) (reg : AgentRegistry) (llm : LLMBackend)
    (sched : List Nat) (converged : String → Bool) (ctx : ContextStore) :
    ContextStore × Option String :=
  if config.workflow.type = "sequential" then
    runSequentialWorkflow config.workflow.steps reg llm ctx
  else if config.workflow.type = "parallel" then
    match config.workflow.thenCfg.feedback_loop with
    | some fb =>
      if fb.enabled then
        runIterativeParallelWorkflow config.workflow.branches
          config.workflow.thenCfg.agent converged reg llm sched
          fb.max_iterations ctx
      else
        runParallelWorkflow config.workflow.branches config.workflow.thenCfg.agent
          reg llm sched ctx
    | none =>
      runParallelWorkflow config.workflow.branches config.workflow.thenCfg.agent
        reg llm sched ctx
  else (ctx, none)

/-! ## CodeExecutionTool (`src/mcp/tools/code-execution.ts`) -/

/-- Outcome of running a compiled script inside the V8 isolate (an
opaque host facility): either the script's return value with the
captured log lines and heap usage, or the engine's thrown error
message (script exception, timeout, or memory violation). -/
inductive SandboxOutcome where
  | ok (returnValue : Json) (logs : List String) (heapUsedBytes : Nat)
  | err (message : String)

/-- JS `config.x || default` for numeric config fields. -/
def jsOrNat (v : Option Nat) (d : Nat) : Nat :=
  match v with
  | none => d
  | some 0 => d
  | some n => n

/-- The constructed `CodeExecutionTool`: `timeout = config.timeout ||
5000`, `memoryLimit = config.memory_limit || 16`. -/
structure CodeExecutionTool where
  timeout : Nat
  memoryLimit : Nat

/-- The `CodeExecutionTool` constructor. -/
def mkCodeExecutionTool (timeout memory_limit : Option Nat) : CodeExecutionTool :=
  { timeout := jsOrNat timeout 5000, memoryLimit := jsOrNat memory_limit 16 }

/-- The error rewriting in `executeJavaScript`'s catch block: messages
mentioning `timeout`/`memory` are classified, anything else surfaces
as-is. -/
def classifyJsError (t : CodeExecutionTool) (msg : String) : String :=
  if containsSubB msg.data "timeout".data then
    "Code execution timed out after " ++ toString t.timeout ++ "ms"
  else if containsSubB msg.data "memory".data then
    "Code exceeded memory limit of " ++ toString t.memoryLimit ++ "MB"
  else msg

/-- `executeJavaScript` (lines 65–141): on a fulfilled run, a success
result carrying the return value, ordered logs, language tag, elapsed
time and approximate heap use; on any engine error, a failure result
with the classified message.  `elapsed` models the `Date.now()`
difference; the decimal formatting of `memoryUsedMB` is approximated
by integer megabytes.  Every exit path returns an `MCPToolResult`
(the isolate disposal in `finally` has no observable result). -/
def executeJavaScript (t : CodeExecutionTool) (sandbox : String → SandboxOutcome)
    (elapsed : Nat) (code : String) : MCPToolResult :=
  match sandbox code with
  | .ok ret logs heap =>
    { success := true
      result := some (.obj
        [("returnValue", ret),
         ("output", .arr (logs.map .str)),
         ("language", .str "javascript"),
         ("executionTime", .num elapsed),
         ("memoryUsedMB", .num (heap / 1048576))])
      executionTime := elapsed }
  | .err msg =>
    { success := false
      error := some (classifyJsError t msg)
      executionTime := elapsed }

/-- `executePython` (lines 143–153): the declared stub. -/
def executePython (_code : String) : MCPToolResult :=
  { success := false
    error := some "Python execution not yet implemented. Install python-shell package and configure Python runtime."
    executionTime := 0 }

/-- `CodeExecutionTool.execute` (lines 45–64): dispatch on the language
tag; the surrounding try/catch re-packages any escaping exception as a
failure result, but both callees already return on every path, so the
dispatch is total. -/
def codeExecute (t : CodeExecutionTool) (sandbox : String → SandboxOutcome)
    (elapsed : Nat) (language code : String) : MCPToolResult :=
  if language = "javascript" then executeJavaScript t sandbox elapsed code
  else executePython code

/-! ## Filesystem and web-search tools (result shape only)

For the ToolResult invariant the two I/O wrapper tools matter only
through their return sites; the body of each `try` block (path
validation, `fs` calls, HTTP calls) is abstracted as an `Except`-valued
outcome where a thrown error is the `.error` case. -/

/-- `FilesystemTool.execute` from `src/mcp/tools/filesystem.ts` (lines
59–151): the try block computes `result` and returns a success; any
throw is caught and returned as a failure with the message. -/
def filesystemExecute (outcome : Except String Json) (elapsed : Nat) : MCPToolResult :=
  match outcome with
  | .ok r => { success := true, result := some r, executionTime := elapsed }
  | .error e => { success := false, error := some e, executionTime := elapsed }

/-- `WebSearchTool.execute` from `src/mcp/tools/web-search.ts` (lines
44–85): same two return sites as the filesystem tool. -/
def webSearchExecute (outcome : Except String Json) (elapsed : Nat) : MCPToolResult :=
  match outcome with
  | .ok r => { success := true, result := some r, executionTime := elapsed }
  | .error e => { success := false, error := some e, executionTime := elapsed }

/-! ## Ordered-containment predicate (for the prompt-builder claims) -/

/-- `ContainsInOrder hay needles`: the needles occur as disjoint
contiguous substrings of `hay`, in the given order. -/
def ContainsInOrder (hay : List Char) : List (List Char) → Prop
  | [] => True
  | n :: ns => ∃ pre rest, hay = pre ++ n ++ rest ∧ ContainsInOrder rest ns

/-- The header characters of one rendered timeline block:
`--- role (agentId) ---`. -/
def headerNeedle (r : TimelineEntry) : List Char :=
  ("--- " ++ r.role ++ " (" ++ r.agentId ++ ") ---").data

/-- The needles a rendered timeline must contain in order: each record's
header then its output; the final record's output appears with its
trailing whitespace removed, because the builder trims the whole
prompt. -/
def recordNeedles : List TimelineEntry → List (List Char)
  | [] => []
  | [r] => [headerNeedle r, trimRight r.output.data]
  | r :: rest => headerNeedle r :: r.output.data :: recordNeedles rest

/-! ## Concrete instances used by witnesses and counterexamples -/

/-- A backend for the C3 witness: it always answers with the same
well-formed tool-call block. -/
def alwaysToolBackend : LLMBackend :=
  fun _ _ => .ok "<tool_call>\x7b\"tool\":\"calc\"\x7d</tool_call>"

/-- A concrete `JSON.parse` model matching `alwaysToolBackend`'s block
content (faithful to real `JSON.parse` on that string). -/
def alwaysToolParse : String → Option Json :=
  fun s => if s = "\x7b\"tool\":\"calc\"\x7d" then some (.obj [("tool", .str "calc")]) else none

/-- A backend for the C4 witness: it never emits a tool-call block. -/
def plainAnswerBackend : LLMBackend := fun _ _ => .ok "The answer is 42."

/-- The backend of the C4 counterexample: every response carries a block
whose JSON object lacks the `tool` field. -/
def missingToolBackend : LLMBackend :=
  fun _ _ => .ok "<tool_call>\x7b\"parameters\":\x7b\x7d\x7d</tool_call>"

/-- `JSON.parse` on that block content (faithful to real `JSON.parse` on
the string `\x7b"parameters":\x7b\x7d\x7d`). -/
def missingToolParse : String → Option Json :=
  fun s =>
    if s = "\x7b\"parameters\":\x7b\x7d\x7d" then some (.obj [("parameters", .obj [])])
    else none

/-- A backend that always succeeds with the same text, for the C5 and C1
witnesses. -/
def okLLM : LLMBackend := fun _ _ => .ok "out"

/-- A four-agent registry (branches `A`,`B`,`C` and a `then` agent `D`)
for the C5 witness. -/
def demoAgents : AgentRegistry :=
  [("A", ⟨"A", "rA", "g", []⟩), ("B", ⟨"B", "rB", "g", []⟩),
   ("C", ⟨"C", "rC", "g", []⟩), ("D", ⟨"D", "rD", "g", []⟩)]

/-- A backend whose every call throws, for the C6 witness. -/
def failingLLM : LLMBackend := fun _ _ => .error "backend down"

/-! # Theorems -/

/-- **C2** — `MCPToolRegistry.executeTool` never throws: it is a total
function into `MCPToolResult`, and each failure mode is captured — an
unknown name yields exactly `{success:false, error:"Tool <name> not
found", executionTime:0}`, a provider exception is returned as a
failure carrying the thrown message, and a provider-returned result
(including a provider-reported failure) is passed through unchanged. -/
theorem executeTool_captures_failures (reg : MCPToolRegistry) (name : String)
    (params : Json) :
    (regLookupStr reg name = none →
      executeTool reg (.str name) params =
        { success := false
          error := some ("Tool " ++ name ++ " not found")
          executionTime := 0 }) ∧
    (∀ p e, regLookupStr reg name = some p → p.execute params = .error e →
      executeTool reg (.str name) params =
        { success := false, error := some e, executionTime := 0 }) ∧
    (∀ p r, regLookupStr reg name = some p → p.execute params = .ok r →
      executeTool reg (.str name) params = r) := by
  refine ⟨fun h => ?_, fun p e hp he => ?_, fun p r hp hr => ?_⟩ <;>
    simp [executeTool, regGet, jsToDisplay, *]

/-- Witness for C2: on the empty registry, executing an unknown tool
name returns the exact not-found result. -/
theorem executeTool_captures_failures_witness :
    executeTool [] (.str "no_such_tool") (.obj []) =
      { success := false
        error := some "Tool no_such_tool not found"
        executionTime := 0 } :=
  (executeTool_captures_failures [] "no_such_tool" (.obj [])).1 rfl

/-- **C10** — a JS-falsy `maxToolCalls` (absent or `0`) is replaced by
the default bound 5: the loop behaves exactly as if `maxToolCalls = 5`
had been passed, so a caller cannot configure a zero-round bound. -/
theorem generateWithTools_falsy_bound_default (system user : String)
    (tools : List MCPTool) (backend : LLMBackend)
    (jsonParse : String → Option Json) (reg : MCPToolRegistry) :
    generateWithTools (ToolAwareLLMParams.mk system user tools none)
        backend jsonParse reg =
      generateWithTools (ToolAwareLLMParams.mk system user tools (some 5))
        backend jsonParse reg ∧
    generateWithTools (ToolAwareLLMParams.mk system user tools (some 0))
        backend jsonParse reg =
      generateWithTools (ToolAwareLLMParams.mk system user tools (some 5))
        backend jsonParse reg ∧
    effectiveMaxIterations none = 5 ∧ effectiveMaxIterations (some 0) = 5 :=
  ⟨rfl, rfl, rfl, rfl⟩

/-- **C7** — `CodeExecutionTool.execute` is total: every sandbox-reported
failure (script exception, timeout, memory violation) comes back as a
`success=false` result with the classified error message rather than
an escaping exception, and any request for a language other than
`javascript` returns the not-implemented stub result with
`executionTime = 0` without consulting the sandbox. -/
theorem codeExecute_total_and_stub (t : CodeExecutionTool)
    (sandbox : String → SandboxOutcome) (elapsed : Nat) (language code : String) :
    (∀ msg, sandbox code = .err msg →
      codeExecute t sandbox elapsed "javascript" code =
        { success := false, error := some (classifyJsError t msg),
          executionTime := elapsed }) ∧
    (language ≠ "javascript" →
      codeExecute t sandbox elapsed language code =
        { success := false
          error := some "Python execution not yet implemented. Install python-shell package and configure Python runtime."
          executionTime := 0 }) := by
  constructor
  · intro msg hmsg
    simp [codeExecute, executeJavaScript, hmsg]
  · intro hlang
    simp [codeExecute, executePython, hlang]

/-- Witness for C7: a sandbox that reports a timeout yields the
classified timeout failure, and a `python` request yields the stub. -/
theorem codeExecute_total_and_stub_witness :
    codeExecute (mkCodeExecutionTool none none) (fun _ => .err "isolate timeout") 7
        "javascript" "while(true);" =
      { success := false
        error := some "Code execution timed out after 5000ms"
        executionTime := 7 } ∧
    codeExecute (mkCodeExecutionTool none none) (fun _ => .err "x") 7 "python" "print(1)" =
      { success := false
        error := some "Python execution not yet implemented. Install python-shell package and configure Python runtime."
        executionTime := 0 } := by
  constructor
  · have h : classifyJsError (mkCodeExecutionTool none none)
        "isolate timeout" = "Code execution timed out after 5000ms" := by
      decide
    have h2 := (codeExecute_total_and_stub (mkCodeExecutionTool none none)
      (fun _ => .err "isolate timeout") 7 "javascript" "while(true);").1
      "isolate timeout" rfl
    rw [h] at h2
    exact h2
  · exact (codeExecute_total_and_stub (mkCodeExecutionTool none none)
      (fun _ => .err "x") 7 "python" "print(1)").2 (by decide)

/-- **C9** — the ToolResult invariant `success=false ⇒ result absent ∧
error present` holds for every producer in scope: the registry's
`executeTool` (assuming the providers it consults uphold the invariant
on the results they report), the code-execution tool on every input,
and the filesystem and web-search wrappers on every outcome. -/
theorem toolResult_invariant :
    (∀ (reg : MCPToolRegistry) (name params : Json),
      (∀ p r, regGet reg name = some p → p.execute params = .ok r →
        r.success = false → r.result = none ∧ r.error.isSome) →
      (executeTool reg name params).success = false →
      (executeTool reg name params).result = none ∧
        (executeTool reg name params).error.isSome) ∧
    (∀ t sandbox elapsed language code,
      (codeExecute t sandbox elapsed language code).success = false →
      (codeExecute t sandbox elapsed language code).result = none ∧
        (codeExecute t sandbox elapsed language code).error.isSome) ∧
    (∀ outcome elapsed,
      (filesystemExecute outcome elapsed).success = false →
      (filesystemExecute outcome elapsed).result = none ∧
        (filesystemExecute outcome elapsed).error.isSome) ∧
    (∀ outcome elapsed,
      (webSearchExecute outcome elapsed).success = false →
      (webSearchExecute outcome elapsed).result = none ∧
        (webSearchExecute outcome elapsed).error.isSome) := by
  refine ⟨?_, ?_, ?_, ?_⟩
  · intro reg name params hprov hfail
    unfold executeTool at *
    cases hreg : regGet reg name with
    | none => simp [hreg] at hfail ⊢
    | some p =>
      cases hex : p.execute params with
      | ok r =>
        simp only [hreg, hex] at hfail ⊢
        exact hprov p r hreg hex hfail
      | error e => simp [hreg, hex] at hfail ⊢
  · intro t sandbox elapsed language code hfail
    unfold codeExecute executeJavaScript executePython at *
    by_cases hl : language = "javascript"
    · simp only [hl, if_pos rfl] at hfail ⊢
      cases hsb : sandbox code with
      | ok v logs heap => simp [hsb] at hfail
      | err msg => simp [hsb]
    · simp [hl] at hfail ⊢
  · intro outcome elapsed hfail
    cases outcome with
    | ok r => simp [filesystemExecute] at hfail
    | error e => simp [filesystemExecute]
  · intro outcome elapsed hfail
    cases outcome with
    | ok r => simp [webSearchExecute] at hfail
    | error e => simp [webSearchExecute]

/-- Witness for C9: concrete failing results from each producer satisfy
the invariant. -/
theorem toolResult_invariant_witness :
    ((executeTool [] (.str "t") .null).result = none ∧
      (executeTool [] (.str "t") .null).error.isSome) ∧
    ((codeExecute (mkCodeExecutionTool none none) (fun _ => .err "boom") 3
        "javascript" "throw 1").result = none ∧
      (codeExecute (mkCodeExecutionTool none none) (fun _ => .err "boom") 3
        "javascript" "throw 1").error.isSome) ∧
    ((filesystemExecute (.error "Path outside working directory") 2).result = none ∧
      (filesystemExecute (.error "Path outside working directory") 2).error.isSome) ∧
    ((webSearchExecute (.error "Google Search API key required") 2).result = none ∧
      (webSearchExecute (.error "Google Search API key required") 2).error.isSome) := by
  refine ⟨?_, ?_, ?_, ?_⟩
  · exact toolResult_invariant.1 [] (.str "t") .null
      (by intro p r h; simp [regGet, regLookupStr] at h) rfl
  · exact toolResult_invariant.2.1 (mkCodeExecutionTool none none)
      (fun _ => .err "boom") 3 "javascript" "throw 1" rfl
  · exact toolResult_invariant.2.2.1 (.error "Path outside working directory") 2 rfl
  · exact toolResult_invariant.2.2.2 (.error "Google Search API key required") 2 rfl

/-- The loop bound is never zero: `maxToolCalls || 5` yields at least 1,
so the loop body always runs at least once. -/
theorem effectiveMaxIterations_pos (m : Option Nat) : 0 < effectiveMaxIterations m := by
  match m with
  | none => decide
  | some 0 => decide
  | some (n + 1) => simp [effectiveMaxIterations]

/-- Under a backend whose every response carries a parseable tool call,
each loop pass consumes one backend call, executes one tool, appends
one audit entry and recurses, until the fuel runs out and the
exhaustion error is thrown. -/
theorem gwtLoop_always_tool (backend : LLMBackend) (jsonParse : String → Option Json)
    (reg : MCPToolRegistry) (sys : String) (maxIter : Nat)
    (h : ∀ s u, ∃ resp, backend s u = .ok resp ∧ (parseToolCall jsonParse resp).isSome) :
    ∀ (fuel : Nat) (prompt : String) (acc : List MCPToolCall) (calls : Nat),
      (gwtLoop backend jsonParse reg sys maxIter fuel prompt acc calls).result =
        .error ("Max tool call iterations (" ++ toString maxIter ++ ") reached") ∧
      (gwtLoop backend jsonParse reg sys maxIter fuel prompt acc calls).toolCalls.length =
        acc.length + fuel ∧
      (gwtLoop backend jsonParse reg sys maxIter fuel prompt acc calls).backendCalls =
        calls + fuel := by
  intro fuel
  induction fuel with
  | zero => intro prompt acc calls; exact ⟨rfl, rfl, rfl⟩
  | succ n ih =>
    intro prompt acc calls
    obtain ⟨resp, hb, hp⟩ := h sys prompt
    cases hpc : parseToolCall jsonParse resp with
    | none => rw [hpc] at hp; simp at hp
    | some tc =>
      have hrec := ih
        (buildToolResultPrompt prompt tc (executeTool reg tc.toolName tc.parameters))
        (acc ++ [⟨tc.toolName, tc.parameters, 0⟩]) (calls + 1)
      simp only [gwtLoop, hb, hpc]
      refine ⟨hrec.1, ?_, ?_⟩
      · rw [hrec.2.1]; simp; omega
      · rw [hrec.2.2]; omega

/-- **C3** — against a backend whose every response carries a well-formed
tool-call block, `generateWithTools` ends in the caller-visible
exhaustion error after exactly `effectiveMaxIterations maxToolCalls`
rounds: that many backend calls were made, that many tool calls were
executed, and the audit list at that point has exactly that length
(not one more). -/
theorem generateWithTools_exhaustion (params : ToolAwareLLMParams)
    (backend : LLMBackend) (jsonParse : String → Option Json) (reg : MCPToolRegistry)
    (h : ∀ s u, ∃ resp, backend s u = .ok resp ∧ (parseToolCall jsonParse resp).isSome) :
    (generateWithTools params backend jsonParse reg).result =
      .error ("Max tool call iterations (" ++
        toString (effectiveMaxIterations params.maxToolCalls) ++ ") reached") ∧
    (generateWithTools params backend jsonParse reg).toolCalls.length =
      effectiveMaxIterations params.maxToolCalls ∧
    (generateWithTools params backend jsonParse reg).backendCalls =
      effectiveMaxIterations params.maxToolCalls := by
  have hmain := gwtLoop_always_tool backend jsonParse reg
    (buildToolPrompt params.system params.tools)
    (effectiveMaxIterations params.maxToolCalls) h
    (effectiveMaxIterations params.maxToolCalls) params.user [] 0
  simpa [generateWithTools] using hmain

/-- Witness for C3: with `maxToolCalls = 2` the loop fails with the
exhaustion error after exactly 2 rounds and 2 audited tool calls. -/
theorem generateWithTools_exhaustion_witness :
    (generateWithTools (ToolAwareLLMParams.mk "s" "u" [] (some 2))
        alwaysToolBackend alwaysToolParse []).result =
      .error "Max tool call iterations (2) reached" ∧
    (generateWithTools (ToolAwareLLMParams.mk "s" "u" [] (some 2))
        alwaysToolBackend alwaysToolParse []).toolCalls.length = 2 ∧
    (generateWithTools (ToolAwareLLMParams.mk "s" "u" [] (some 2))
        alwaysToolBackend alwaysToolParse []).backendCalls = 2 :=
  generateWithTools_exhaustion (ToolAwareLLMParams.mk "s" "u" [] (some 2))
    alwaysToolBackend alwaysToolParse []
    (fun _ _ => ⟨"<tool_call>\x7b\"tool\":\"calc\"\x7d</tool_call>", rfl, by decide⟩)

/-- **C4 (amended)** — per-round leniency of the tool-call parse: a
response with no delimited block, or a block whose content fails
`JSON.parse`, yields no tool call — the loop returns the response as
the final answer with the audit accumulated so far (a backend that
never emits a block returns after exactly 1 round with an empty audit
list).  However a block parsing to a JSON object that merely lacks the
`tool` field is NOT treated as final: `parseToolCall` yields a call
whose tool name is `undefined`, which the round executes against the
registry and continues. -/
theorem toolCallingLoop_leniency (jsonParse : String → Option Json) :
    (∀ response, extractBlock response = none →
      parseToolCall jsonParse response = none) ∧
    (∀ response c, extractBlock response = some c →
      jsonParse (jsTrimS c) = none → parseToolCall jsonParse response = none) ∧
    (∀ response c fields, extractBlock response = some c →
      jsonParse (jsTrimS c) = some (.obj fields) → jsonLookup fields "tool" = none →
      ∃ tc, parseToolCall jsonParse response = some tc ∧ tc.toolName = .undefJs) ∧
    (∀ (params : ToolAwareLLMParams) (backend : LLMBackend)
        (reg : MCPToolRegistry) (resp : String),
      backend (buildToolPrompt params.system params.tools) params.user = .ok resp →
      extractBlock resp = none →
      generateWithTools params backend jsonParse reg =
        { result := .ok resp, toolCalls := [], backendCalls := 1 }) := by
  refine ⟨?_, ?_, ?_, ?_⟩
  · intro response hb
    simp [parseToolCall, hb]
  · intro response c hb hj
    simp [parseToolCall, hb, hj]
  · intro response c fields hb hj hl
    cases hp : jsonLookup fields "parameters" with
    | none =>
      refine ⟨{ toolName := .undefJs, parameters := .obj [] }, ?_, rfl⟩
      simp [parseToolCall, hb, hj, jsGet, hl, hp, jsFalsy]
    | some v =>
      refine ⟨{ toolName := .undefJs,
                parameters := if jsFalsy v then .obj [] else v }, ?_, rfl⟩
      simp [parseToolCall, hb, hj, jsGet, hl, hp]
  · intro params backend reg resp hb hnb
    obtain ⟨k, hk⟩ : ∃ k, effectiveMaxIterations params.maxToolCalls = k + 1 :=
      ⟨effectiveMaxIterations params.maxToolCalls - 1,
        (Nat.succ_pred_eq_of_pos (effectiveMaxIterations_pos _)).symm⟩
    unfold generateWithTools
    rw [hk]
    simp [gwtLoop, hb, parseToolCall, hnb]

/-- Witness for C4: a backend that never emits a block returns after
exactly 1 round with an empty audit list. -/
theorem toolCallingLoop_leniency_witness :
    generateWithTools (ToolAwareLLMParams.mk "s" "u" [] none)
        plainAnswerBackend (fun _ => none) [] =
      { result := .ok "The answer is 42.", toolCalls := [], backendCalls := 1 } :=
  (toolCallingLoop_leniency (fun _ => none)).2.2.2
    (ToolAwareLLMParams.mk "s" "u" [] none) plainAnswerBackend []
    "The answer is 42." rfl (by decide)

/-- Counterexample to C4 as stated: with `maxToolCalls = 1` and a backend
whose response's block parses but lacks a `tool` field, the round does
NOT return the response as the final answer with no tool executed —
instead one tool call (with `undefined` name) is executed and audited,
the round is consumed, and the loop ends in the exhaustion error. -/
theorem parseToolCall_missing_tool_counterexample :
    (generateWithTools (ToolAwareLLMParams.mk "sys" "user" [] (some 1))
        missingToolBackend missingToolParse []).result =
      .error "Max tool call iterations (1) reached" ∧
    (generateWithTools (ToolAwareLLMParams.mk "sys" "user" [] (some 1))
        missingToolBackend missingToolParse []).toolCalls.length = 1 ∧
    (executeTool [] .undefJs (.obj [])).error = some "Tool undefined not found" := by
  refine ⟨rfl, rfl, rfl⟩

/-- An element read off by index is a member of the list. -/
theorem mem_of_getQ {α : Type _} : ∀ (l : List α) (i : Nat) (a : α),
    l.get? i = some a → a ∈ l
  | [], i, a, h => by simp [List.get?] at h
  | x :: t, 0, a, h => by
    simp [List.get?] at h
    exact h ▸ List.mem_cons_self x t
  | x :: t, i + 1, a, h => by
    simp only [List.get?] at h
    exact List.mem_cons_of_mem x (mem_of_getQ t i a h)

/-- `findSome? errProj` finds an error whenever one exists. -/
theorem findSome_errProj_isSome {α : Type _} :
    ∀ (tasks : List (Except String α)),
      (∃ t ∈ tasks, ∃ e, t = Except.error e) →
      ∃ e', tasks.findSome? errProj = some e'
  | [], h => by simp at h
  | t :: rest, h => by
    cases t with
    | error e => exact ⟨e, by simp [List.findSome?, errProj]⟩
    | ok v =>
      have hrest : ∃ t ∈ rest, ∃ e, t = Except.error e := by
        obtain ⟨t', ht', e, he⟩ := h
        rcases List.mem_cons.mp ht' with h1 | h1
        · rw [h1] at he; cases he
        · exact ⟨t', h1, e, he⟩
      obtain ⟨e', he'⟩ := findSome_errProj_isSome rest hrest
      exact ⟨e', by simp [List.findSome?, errProj, he']⟩

/-- `findSome? errProj` finds nothing when every task fulfilled. -/
theorem findSome_errProj_eq_none {α : Type _} :
    ∀ (tasks : List (Except String α)),
      (∀ t ∈ tasks, ∃ v, t = Except.ok v) →
      tasks.findSome? errProj = none
  | [], _ => rfl
  | t :: rest, h => by
    obtain ⟨v, hv⟩ := h t (List.mem_cons_self t rest)
    subst hv
    simp only [List.findSome?, errProj]
    exact findSome_errProj_eq_none rest (fun t' ht' => h t' (List.mem_cons_of_mem _ ht'))

/-- If some task rejected, the modelled `Promise.all` rejects under every
completion order. -/
theorem firstErrorBySched_isSome_of_error {α : Type _}
    (tasks : List (Except String α))
    (h : ∃ t ∈ tasks, ∃ e, t = Except.error e) :
    ∀ sched : List Nat, ∃ e', firstErrorBySched tasks sched = some e'
  | [] => by
    simp only [firstErrorBySched]
    exact findSome_errProj_isSome tasks h
  | i :: rest => by
    simp only [firstErrorBySched]
    cases hg : tasks.get? i with
    | none => simpa [hg] using firstErrorBySched_isSome_of_error tasks h rest
    | some t =>
      cases t with
      | error e => exact ⟨e, by simp [hg]⟩
      | ok v => simpa [hg] using firstErrorBySched_isSome_of_error tasks h rest

/-- If every task fulfilled, the modelled `Promise.all` fulfils under every
completion order. -/
theorem firstErrorBySched_eq_none_of_ok {α : Type _}
    (tasks : List (Except String α))
    (h : ∀ t ∈ tasks, ∃ v, t = Except.ok v) :
    ∀ sched : List Nat, firstErrorBySched tasks sched = none
  | [] => by
    simp only [firstErrorBySched]
    exact findSome_errProj_eq_none tasks h
  | i :: rest => by
    simp only [firstErrorBySched]
    cases hg : tasks.get? i with
    | none => simpa [hg] using firstErrorBySched_eq_none_of_ok tasks h rest
    | some t =>
      obtain ⟨v, hv⟩ := h t (mem_of_getQ tasks i t hg)
      subst hv
      simpa [hg] using firstErrorBySched_eq_none_of_ok tasks h rest

/-- **C6** — if any branch's task rejects, the whole parallel join fails:
the run reports the error and the context comes back exactly as it
went in — no partial merge of the branches that succeeded, in outputs
or timeline. -/
theorem parallel_branch_failure_no_partial_merge (branches : List String)
    (thenAgent : String) (reg : AgentRegistry) (llm : LLMBackend)
    (sched : List Nat) (ctx : ContextStore)
    (h : ∃ a ∈ branches, ∃ e, branchTask reg ctx llm a = .error e) :
    ∃ e', runParallelWorkflow branches thenAgent reg llm sched ctx = (ctx, some e') := by
  have htasks : ∃ t ∈ branches.map (branchTask reg ctx llm), ∃ e, t = Except.error e := by
    obtain ⟨a, ha, e, he⟩ := h
    exact ⟨_, List.mem_map_of_mem _ ha, e, he⟩
  obtain ⟨e', he'⟩ := firstErrorBySched_isSome_of_error _ htasks sched
  exact ⟨e', by simp [runParallelWorkflow, promiseAll, he']⟩

/-- Witness for C6: with branch `A`'s backend call failing, the run
reports an error and returns the context untouched. -/
theorem parallel_branch_failure_no_partial_merge_witness :
    ∃ e', runParallelWorkflow ["A"] "D" [("A", ⟨"A", "researcher", "dig", []⟩)]
      failingLLM [0] ⟨"hello", [], []⟩ = (⟨"hello", [], []⟩, some e') :=
  parallel_branch_failure_no_partial_merge ["A"] "D"
    [("A", ⟨"A", "researcher", "dig", []⟩)] failingLLM [0] ⟨"hello", [], []⟩
    ⟨"A", by decide, "backend down", rfl⟩

/-- Merging a result list into the context appends its entries to the
timeline in list order. -/
theorem foldl_mergeEntry_timeline : ∀ (rs : List TimelineEntry) (c : ContextStore),
    (rs.foldl mergeEntry c).timeline = c.timeline ++ rs
  | [], c => by simp
  | r :: t, c => by
    rw [List.foldl_cons, foldl_mergeEntry_timeline t (mergeEntry c r)]
    simp [mergeEntry]

/-- When every task fulfils with a result carrying its own agent id, the
fulfilled values line up with the input list. -/
theorem okValues_agentIds : ∀ (l : List String) (f : String → Except String TimelineEntry),
    (∀ a ∈ l, ∃ r, f a = Except.ok r ∧ r.agentId = a) →
    (okValues (l.map f)).map TimelineEntry.agentId = l
  | [], _, _ => rfl
  | a :: t, f, h => by
    obtain ⟨r, hr, hid⟩ := h a (List.mem_cons_self a t)
    have ht := okValues_agentIds t f (fun b hb => h b (List.mem_cons_of_mem _ hb))
    show (okValues (f a :: t.map f)).map TimelineEntry.agentId = a :: t
    simp only [okValues, List.filterMap_cons, hr]
    rw [List.map_cons, hid]
    exact congrArg (a :: ·) ht

/-- **C5** — when every branch agent is registered (under its own id) and
every backend call succeeds, the parallel run succeeds, its outcome is
the same under every completion order, and the timeline records it
appends follow branch-declaration order with the `then` agent last:
the appended agent ids are exactly `branches ++ [then]`. -/
theorem parallel_timeline_declaration_order (branches : List String)
    (thenAgent : String) (reg : AgentRegistry) (llm : LLMBackend) (ctx : ContextStore)
    (hllm : ∀ s u, ∃ out, llm s u = Except.ok out)
    (hag : ∀ a, (a ∈ branches ∨ a = thenAgent) →
      ∃ ag, getAgent reg a = .ok ag ∧ ag.id = a)
    (sched sched' : List Nat) :
    runParallelWorkflow branches thenAgent reg llm sched ctx =
      runParallelWorkflow branches thenAgent reg llm sched' ctx ∧
    (runParallelWorkflow branches thenAgent reg llm sched ctx).2 = none ∧
    (runParallelWorkflow branches thenAgent reg llm sched ctx).1.timeline.map
        TimelineEntry.agentId =
      ctx.timeline.map TimelineEntry.agentId ++ branches ++ [thenAgent] := by
  have htask : ∀ a ∈ branches, ∃ r, branchTask reg ctx llm a = .ok r ∧ r.agentId = a := by
    intro a ha
    obtain ⟨ag, hga, hid⟩ := hag a (Or.inl ha)
    obtain ⟨out, hout⟩ := hllm (buildPrompt ag ctx).system (buildPrompt ag ctx).user
    refine ⟨⟨ag.id, ag.role, out, 0, 0⟩, ?_, hid⟩
    simp [branchTask, hga, hout]
  have hok : ∀ t ∈ branches.map (branchTask reg ctx llm), ∃ v, t = Except.ok v := by
    intro t ht
    obtain ⟨a, ha, rfl⟩ := List.mem_map.mp ht
    obtain ⟨r, hr, _⟩ := htask a ha
    exact ⟨r, hr⟩
  have hfe := firstErrorBySched_eq_none_of_ok _ hok
  obtain ⟨agD, hgD, hidD⟩ := hag thenAgent (Or.inr rfl)
  obtain ⟨outD, houtD⟩ := hllm
    (buildPrompt agD ((okValues (branches.map (branchTask reg ctx llm))).foldl
      mergeEntry ctx)).system
    (buildPrompt agD ((okValues (branches.map (branchTask reg ctx llm))).foldl
      mergeEntry ctx)).user
  have hrun : ∀ sch : List Nat,
      runParallelWorkflow branches thenAgent reg llm sch ctx =
        (mergeEntry ((okValues (branches.map (branchTask reg ctx llm))).foldl
            mergeEntry ctx)
          ⟨agD.id, agD.role, outD, 0, 0⟩, none) := by
    intro sch
    simp only [runParallelWorkflow, promiseAll, hfe sch, hgD, houtD]
  refine ⟨?_, ?_, ?_⟩
  · rw [hrun sched, hrun sched']
  · rw [hrun sched]
  · rw [hrun sched]
    show (mergeEntry _ _).timeline.map TimelineEntry.agentId = _
    simp only [mergeEntry, foldl_mergeEntry_timeline, List.map_append]
    rw [okValues_agentIds branches _ htask]
    simp [hidD]

/-- Witness for C5: branches `[A,B,C]` with `then = D` append the
timeline `A,B,C,D`, identically under the completion orders `[2,0,1]`
and `[]`. -/
theorem parallel_timeline_declaration_order_witness :
    runParallelWorkflow ["A", "B", "C"] "D" demoAgents okLLM [2, 0, 1]
        ⟨"inp", [], []⟩ =
      runParallelWorkflow ["A", "B", "C"] "D" demoAgents okLLM [] ⟨"inp", [], []⟩ ∧
    (runParallelWorkflow ["A", "B", "C"] "D" demoAgents okLLM [2, 0, 1]
        ⟨"inp", [], []⟩).2 = none ∧
    (runParallelWorkflow ["A", "B", "C"] "D" demoAgents okLLM [2, 0, 1]
        ⟨"inp", [], []⟩).1.timeline.map TimelineEntry.agentId = ["A", "B", "C", "D"] := by
  have hmain := parallel_timeline_declaration_order ["A", "B", "C"] "D" demoAgents okLLM
    ⟨"inp", [], []⟩ (fun _ _ => ⟨"out", rfl⟩)
    (by
      intro a ha
      rcases ha with ha | rfl
      · simp at ha
        rcases ha with rfl | rfl | rfl <;> exact ⟨_, rfl, rfl⟩
      · exact ⟨_, rfl, rfl⟩)
    [2, 0, 1] []
  exact ⟨hmain.1, hmain.2.1, hmain.2.2⟩

/-- **C1 (amended)** — for a workflow configuration whose type is neither
`"sequential"` nor `"parallel"`, `runWorkflow` raises no error and
makes no backend call: it silently returns with the context unchanged
(the dispatcher has no `else` branch, so an unknown type falls
through). -/
theorem runWorkflow_unknown_type_noop (config : RootConfig) (reg : AgentRegistry)
    (llm : LLMBackend) (sched : List Nat) (converged : String → Bool)
    (ctx : ContextStore)
    (h1 : config.workflow.type ≠ "sequential")
    (h2 : config.workflow.type ≠ "parallel") :
    runWorkflow config reg llm sched converged ctx = (ctx, none) := by
  simp [runWorkflow, h1, h2]

/-- Witness for C1: a workflow of type `"graph"` silently no-ops. -/
theorem runWorkflow_unknown_type_noop_witness :
    runWorkflow ⟨⟨"graph", [], [], ⟨"D", none⟩⟩⟩ demoAgents okLLM [] (fun _ => false)
      ⟨"u", [], []⟩ = (⟨"u", [], []⟩, none) :=
  runWorkflow_unknown_type_noop ⟨⟨"graph", [], [], ⟨"D", none⟩⟩⟩ demoAgents okLLM []
    (fun _ => false) ⟨"u", [], []⟩ (by decide) (by decide)

/-- Counterexample to C1 as stated: on a concrete configuration whose
workflow type is `"magical"` (neither `"sequential"` nor
`"parallel"`), `runWorkflow` does NOT raise a fatal configuration
error — it returns successfully (`none` in the error slot) with the
context exactly as it was, having made no backend call. -/
theorem runWorkflow_unknown_type_counterexample :
    runWorkflow ⟨⟨"magical", [], [], ⟨"D", none⟩⟩⟩ [] okLLM [] (fun _ => false)
      ⟨"u", [("x", "y")], []⟩ = (⟨"u", [("x", "y")], []⟩, none) := rfl

/-! ## Whitespace-trimming lemmas (for C8) -/

/-- Dropping a satisfying prefix skips past an all-satisfying block. -/
theorem dropWhile_append_all (p : Char → Bool) :
    ∀ (l₁ l₂ : List Char), (∀ c ∈ l₁, p c = true) →
      List.dropWhile p (l₁ ++ l₂) = List.dropWhile p l₂
  | [], _, _ => rfl
  | a :: t, l₂, h => by
    simp only [List.cons_append, List.dropWhile_cons, h a (List.mem_cons_self a t),
      if_true]
    exact dropWhile_append_all p t l₂ (fun c hc => h c (List.mem_cons_of_mem _ hc))

/-- `dropWhile` never reaches past a failing element. -/
theorem dropWhile_append_cons_neg (p : Char → Bool) (c : Char) (hc : p c = false) :
    ∀ (l₁ l₂ : List Char),
      List.dropWhile p (l₁ ++ c :: l₂) = List.dropWhile p l₁ ++ c :: l₂
  | [], l₂ => by simp [List.dropWhile_cons, hc]
  | a :: t, l₂ => by
    cases hpa : p a with
    | false => simp [List.dropWhile_cons, hpa]
    | true =>
      simp only [List.cons_append, List.dropWhile_cons, hpa, if_true]
      exact dropWhile_append_cons_neg p c hc t l₂

/-- If `dropWhile` empties a list, every element satisfied the predicate. -/
theorem dropWhile_eq_nil_all (p : Char → Bool) :
    ∀ (l : List Char), List.dropWhile p l = [] → ∀ c ∈ l, p c = true
  | [], _, c, hc => absurd hc (List.not_mem_nil c)
  | a :: t, h, c, hc => by
    cases hpa : p a with
    | false => simp [List.dropWhile_cons, hpa] at h
    | true =>
      rcases List.mem_cons.mp hc with rfl | hc'
      · exact hpa
      · simp only [List.dropWhile_cons, hpa, if_true] at h
        exact dropWhile_eq_nil_all p t h c hc'

/-- The head surviving a `dropWhile` fails the predicate. -/
theorem head_dropWhile_false (p : Char → Bool) :
    ∀ (l : List Char) (a : Char) (t : List Char),
      List.dropWhile p l = a :: t → p a = false
  | [], a, t, h => by simp at h
  | x :: xs, a, t, h => by
    cases hpx : p x with
    | true =>
      simp only [List.dropWhile_cons, hpx, if_true] at h
      exact head_dropWhile_false p xs a t h
    | false =>
      simp only [List.dropWhile_cons, hpx] at h
      simp at h
      rw [← h.1]
      exact hpx

/-- A list is its right-trimmed part followed by an all-whitespace
suffix. -/
theorem trimRight_decomposition (l : List Char) :
    ∃ W, l = trimRight l ++ W ∧ ∀ c ∈ W, wsChar c = true := by
  refine ⟨(l.reverse.takeWhile wsChar).reverse, ?_, ?_⟩
  · rw [trimRight, ← List.reverse_append, List.takeWhile_append_dropWhile,
      List.reverse_reverse]
  · intro c hc
    rw [List.mem_reverse] at hc
    exact List.mem_takeWhile_imp hc

/-- Appending whitespace does not change the right trim. -/
theorem trimRight_append_ws (A B : List Char) (h : ∀ c ∈ B, wsChar c = true) :
    trimRight (A ++ B) = trimRight A := by
  unfold trimRight
  rw [List.reverse_append,
    dropWhile_append_all wsChar B.reverse A.reverse
      (fun c hc => h c (List.mem_reverse.mp hc))]

/-- Right-trimming a string whose prefix ends in a non-whitespace
character trims only within the suffix. -/
theorem trimRight_append_last_nonws (A B : List Char) (c : Char)
    (hc : wsChar c = false) :
    trimRight ((A ++ [c]) ++ B) = (A ++ [c]) ++ trimRight B := by
  unfold trimRight
  rw [List.reverse_append, List.reverse_append]
  simp only [List.reverse_cons, List.reverse_nil, List.nil_append,
    List.singleton_append]
  rw [dropWhile_append_cons_neg wsChar c hc B.reverse A.reverse]
  rw [List.reverse_append, List.reverse_cons, List.reverse_reverse]

/-- A block ending in a non-whitespace character is its own right trim. -/
theorem trimRight_eq_self_of_last_nonws (A : List Char) (c : Char)
    (hc : wsChar c = false) :
    trimRight (A ++ [c]) = A ++ [c] := by
  have h2 := trimRight_append_last_nonws A ([] : List Char) c hc
  simpa [trimRight] using h2

/-- A list containing a non-whitespace character has a non-empty right
trim. -/
theorem trimRight_ne_nil_of_mem (B : List Char) (c : Char) (hmem : c ∈ B)
    (hw : wsChar c = false) : trimRight B ≠ [] := by
  intro h
  obtain ⟨W, hdecomp, hws⟩ := trimRight_decomposition B
  rw [h, List.nil_append] at hdecomp
  rw [hdecomp] at hmem
  simp [hws c hmem] at hw

/-- Right-trimming stops before a suffix with a non-empty right trim. -/
theorem trimRight_append_of_ne_nil (A B : List Char) (h : trimRight B ≠ []) :
    trimRight (A ++ B) = A ++ trimRight B := by
  obtain ⟨W, hB, hws⟩ := trimRight_decomposition B
  obtain ⟨l', c, hTB, hc⟩ : ∃ l' c, trimRight B = l' ++ [c] ∧ wsChar c = false := by
    unfold trimRight at h ⊢
    cases hd : List.dropWhile wsChar B.reverse with
    | nil => rw [hd] at h; simp at h
    | cons a t =>
      refine ⟨t.reverse, a, ?_, head_dropWhile_false wsChar B.reverse a t hd⟩
      simp
  calc trimRight (A ++ B)
      = trimRight (A ++ (trimRight B ++ W)) := by rw [← hB]
    _ = trimRight ((A ++ trimRight B) ++ W) := by rw [List.append_assoc]
    _ = trimRight (A ++ trimRight B) := trimRight_append_ws _ W hws
    _ = trimRight ((A ++ l') ++ [c]) := by rw [hTB, List.append_assoc]
    _ = (A ++ l') ++ [c] := trimRight_eq_self_of_last_nonws _ c hc
    _ = A ++ trimRight B := by rw [hTB, List.append_assoc]

/-- Right-trimming after a leading character either keeps that character
or empties everything; in both cases the trimmed tail appears inside. -/
theorem trimRight_cons_split (c : Char) (l : List Char) :
    ∃ pre rest, trimRight (c :: l) = pre ++ trimRight l ++ rest := by
  cases hd : List.dropWhile wsChar l.reverse with
  | nil =>
    have hTl : trimRight l = [] := by rw [trimRight, hd, List.reverse_nil]
    exact ⟨[], trimRight (c :: l), by simp [hTl]⟩
  | cons a t =>
    have hne : trimRight l ≠ [] := by
      rw [trimRight, hd]
      simp
    have hsplit := trimRight_append_of_ne_nil [c] l hne
    exact ⟨[c], [], by simpa using hsplit⟩

/-! ## Ordered-containment lemmas and string-join lemmas (for C8) -/

/-- Containment in order survives prepending text. -/
theorem cio_append_left (X : List Char) :
    ∀ (hay : List Char) (ns : List (List Char)),
      ContainsInOrder hay ns → ContainsInOrder (X ++ hay) ns
  | _, [], _ => trivial
  | hay, n :: ns, h => by
    simp only [ContainsInOrder] at h ⊢
    obtain ⟨pre, rest, heq, h2⟩ := h
    exact ⟨X ++ pre, rest, by rw [heq]; simp [List.append_assoc], h2⟩

/-- `foldl (· ++ ·)` over strings, in characters. -/
theorem string_foldl_append_data :
    ∀ (l : List String) (a : String),
      (l.foldl (· ++ ·) a).data = a.data ++ (String.join l).data
  | [], a => by simp [String.join]
  | s :: t, a => by
    have hR : (String.join (s :: t)).data = s.data ++ (String.join t).data := by
      rw [show String.join (s :: t) = (s :: t).foldl (· ++ ·) "" from rfl,
        List.foldl_cons, string_foldl_append_data t ("" ++ s)]
      simp [String.data_append]
    rw [List.foldl_cons, string_foldl_append_data t (a ++ s), hR]
    simp [String.data_append]

/-- `String.join` over a cons, in characters. -/
theorem string_join_cons_data (s : String) (t : List String) :
    (String.join (s :: t)).data = s.data ++ (String.join t).data := by
  rw [show String.join (s :: t) = (s :: t).foldl (· ++ ·) "" from rfl,
    List.foldl_cons, string_foldl_append_data t ("" ++ s)]
  simp [String.data_append]

/-- The characters of one rendered block, split around its header. -/
theorem renderEntry_data (r : TimelineEntry) :
    (renderEntry r).data =
      '\n' :: (headerNeedle r ++ ('\n' :: (r.output.data ++ ['\n']))) := by
  have h1 : "\n--- ".data = '\n' :: "--- ".data := rfl
  have h2 : ") ---\n".data = ") ---".data ++ ['\n'] := rfl
  have h3 : "\n".data = ['\n'] := rfl
  simp [renderEntry, headerNeedle, String.data_append, h1, h2, h3,
    List.append_assoc]

/-- A header needle starts with a dash. -/
theorem headerNeedle_cons (r : TimelineEntry) :
    headerNeedle r = '-' :: ("-- " ++ r.role ++ " (" ++ r.agentId ++ ") ---").data := by
  have h1 : "--- ".data = '-' :: "-- ".data := rfl
  simp [headerNeedle, String.data_append, h1]

/-- A header needle ends with a dash. -/
theorem headerNeedle_snoc (r : TimelineEntry) :
    headerNeedle r =
      ("--- " ++ r.role ++ " (" ++ r.agentId ++ ") --").data ++ ['-'] := by
  have h1 : ") ---".data = ") --".data ++ ['-'] := rfl
  simp [headerNeedle, String.data_append, h1]

/-- Rendered blocks of a non-empty timeline contain a dash. -/
theorem dash_mem_blocks : ∀ (l : List TimelineEntry), l ≠ [] →
    '-' ∈ (String.join (l.map renderEntry)).data
  | [], h => absurd rfl h
  | r :: t, _ => by
    rw [List.map_cons, string_join_cons_data, renderEntry_data, headerNeedle_cons]
    simp

/-- `recordNeedles` over a cons with a non-empty tail. -/
theorem recordNeedles_cons (r : TimelineEntry) (rest : List TimelineEntry)
    (h : rest ≠ []) :
    recordNeedles (r :: rest) = headerNeedle r :: r.output.data :: recordNeedles rest := by
  cases rest with
  | nil => exact absurd rfl h
  | cons r' t => rfl

/-- Rendered blocks, right-trimmed after any prefix, contain every
record's header and output in timeline order (the last output up to
trailing whitespace). -/
theorem cio_blocks : ∀ (l : List TimelineEntry), l ≠ [] → ∀ (X : List Char),
    ContainsInOrder (trimRight (X ++ (String.join (l.map renderEntry)).data))
      (recordNeedles l)
  | [], h, _ => absurd rfl h
  | [r], _, X => by
    rw [List.map_cons, List.map_nil, string_join_cons_data, renderEntry_data]
    have hjoin : (String.join ([] : List String)).data = [] := rfl
    rw [hjoin, List.append_nil]
    have hshape : X ++ ('\n' :: (headerNeedle r ++ ('\n' :: (r.output.data ++ ['\n'])))) =
        (((X ++ ['\n']) ++ ("--- " ++ r.role ++ " (" ++ r.agentId ++ ") --").data)
          ++ ['-']) ++ ('\n' :: (r.output.data ++ ['\n'])) := by
      rw [headerNeedle_snoc]
      simp [List.append_assoc]
    rw [hshape, trimRight_append_last_nonws _ _ '-' (by decide)]
    have htr : trimRight ('\n' :: (r.output.data ++ ['\n'])) =
        trimRight ('\n' :: r.output.data) := by
      have hsh : ('\n' :: (r.output.data ++ ['\n'])) =
          ('\n' :: r.output.data) ++ ['\n'] := by simp
      rw [hsh, trimRight_append_ws _ ['\n']]
      intro c hc
      simp at hc
      simp [hc, wsChar]
    rw [htr]
    obtain ⟨pre2, rest2, hsplit⟩ := trimRight_cons_split '\n' r.output.data
    rw [hsplit]
    show ContainsInOrder _ [headerNeedle r, trimRight r.output.data]
    simp only [ContainsInOrder]
    refine ⟨X ++ ['\n'], pre2 ++ (trimRight r.output.data ++ rest2), ?_,
      pre2, rest2, ?_, trivial⟩
    · rw [headerNeedle_snoc]
      simp [List.append_assoc]
    · simp [List.append_assoc]
  | r :: r' :: t, _, X => by
    have hne : (r' :: t) ≠ [] := List.cons_ne_nil _ _
    rw [List.map_cons, string_join_cons_data, renderEntry_data,
      recordNeedles_cons r _ hne]
    have hdash := dash_mem_blocks (r' :: t) hne
    have hBne : trimRight ((String.join ((r' :: t).map renderEntry)).data) ≠ [] :=
      trimRight_ne_nil_of_mem _ '-' hdash (by decide)
    have hshape : X ++ (('\n' :: (headerNeedle r ++ ('\n' :: (r.output.data ++ ['\n']))))
          ++ (String.join ((r' :: t).map renderEntry)).data) =
        (X ++ ('\n' :: (headerNeedle r ++ ('\n' :: (r.output.data ++ ['\n'])))))
          ++ (String.join ((r' :: t).map renderEntry)).data := by
      simp [List.append_assoc]
    rw [hshape, trimRight_append_of_ne_nil _ _ hBne]
    simp only [ContainsInOrder]
    refine ⟨X ++ ['\n'],
      ('\n' :: (r.output.data ++ ['\n'])) ++
        trimRight ((String.join ((r' :: t).map renderEntry)).data), ?_,
      ['\n'], ['\n'] ++ trimRight ((String.join ((r' :: t).map renderEntry)).data),
      ?_, ?_⟩
    · simp [List.append_assoc]
    · simp [List.append_assoc]
    · refine cio_append_left ['\n'] _ _ ?_
      have hrec := cio_blocks (r' :: t) hne []
      simpa using hrec

/-- **C8 (amended)** — `buildPrompt` is a pure function of the agent and
the context.  With an empty timeline the user prompt is exactly the
trimmed `User input:` block — no prior-output section — and contains
the user input up to its trailing whitespace (the builder trims the
whole prompt).  With a non-empty timeline the user prompt contains, in
timeline order, the `Previous agent outputs:` marker and then each
record's `--- role (agentId) ---` header and its output verbatim,
except that the final record's output appears with its trailing
whitespace removed. -/
theorem buildPrompt_renders (agent : Agent) (ctx : ContextStore) :
    (ctx.timeline = [] →
      (buildPrompt agent ctx).user = jsTrimS ("User input:\n" ++ ctx.userInput ++ "\n") ∧
      ContainsInOrder (buildPrompt agent ctx).user.data
        [trimRight ctx.userInput.data]) ∧
    (ctx.timeline ≠ [] →
      ContainsInOrder (buildPrompt agent ctx).user.data
        ("Previous agent outputs:".data :: recordNeedles ctx.timeline)) := by
  constructor
  · intro h
    have hu : (buildPrompt agent ctx).user =
        jsTrimS ("User input:\n" ++ ctx.userInput ++ "\n" ++ "") := by
      simp [buildPrompt, h]
    have hu2 : (buildPrompt agent ctx).user =
        jsTrimS ("User input:\n" ++ ctx.userInput ++ "\n") := by
      rw [hu]
      unfold jsTrimS
      exact congrArg String.mk (congrArg jsTrim (by simp [String.data_append]))
    refine ⟨hu2, ?_⟩
    rw [hu2]
    show ContainsInOrder (jsTrim ("User input:\n" ++ ctx.userInput ++ "\n").data) _
    have hdata : ("User input:\n" ++ ctx.userInput ++ "\n").data =
        'U' :: ("ser input:\n".data ++ (ctx.userInput.data ++ ['\n'])) := by
      have h1 : "User input:\n".data = 'U' :: "ser input:\n".data := rfl
      have h2 : "\n".data = ['\n'] := rfl
      simp [String.data_append, h1, h2]
    rw [hdata]
    unfold jsTrim
    rw [List.dropWhile_cons]
    simp only [show wsChar 'U' = false from by decide, Bool.false_eq_true, if_false]
    have hshape : ('U' :: ("ser input:\n".data ++ (ctx.userInput.data ++ ['\n']))) =
        (("User input".data ++ [':']) ++ ('\n' :: (ctx.userInput.data ++ ['\n']))) := by
      have h3 : "User input".data ++ [':'] = "User input:".data := rfl
      have h4 : "User input:".data ++ ['\n'] = "User input:\n".data := rfl
      have h1 : "User input:\n".data = 'U' :: "ser input:\n".data := rfl
      rw [h3]
      rw [show ("User input:".data ++ ('\n' :: (ctx.userInput.data ++ ['\n']))) =
        (("User input:".data ++ ['\n']) ++ (ctx.userInput.data ++ ['\n'])) from by
          simp]
      rw [h4, h1]
      simp
    rw [hshape, trimRight_append_last_nonws _ _ ':' (by decide)]
    have htr : trimRight ('\n' :: (ctx.userInput.data ++ ['\n'])) =
        trimRight ('\n' :: ctx.userInput.data) := by
      have hsh : ('\n' :: (ctx.userInput.data ++ ['\n'])) =
          ('\n' :: ctx.userInput.data) ++ ['\n'] := by simp
      rw [hsh, trimRight_append_ws _ ['\n']]
      intro c hc
      simp at hc
      simp [hc, wsChar]
    rw [htr]
    obtain ⟨pre2, rest2, hsplit⟩ := trimRight_cons_split '\n' ctx.userInput.data
    rw [hsplit]
    simp only [ContainsInOrder]
    refine ⟨("User input".data ++ [':']) ++ pre2, rest2, ?_, trivial⟩
    simp [List.append_assoc]
  · intro h
    have hlen : ctx.timeline.length > 0 := List.length_pos.mpr h
    have hu : (buildPrompt agent ctx).user =
        jsTrimS ("User input:\n" ++ ctx.userInput ++ "\n" ++
          ("\nPrevious agent outputs:\n" ++
            String.join (ctx.timeline.map renderEntry))) := by
      simp [buildPrompt, hlen]
    rw [hu]
    show ContainsInOrder (jsTrim _) _
    have hdata : ("User input:\n" ++ ctx.userInput ++ "\n" ++
          ("\nPrevious agent outputs:\n" ++
            String.join (ctx.timeline.map renderEntry))).data =
        'U' :: ("ser input:\n".data ++ (ctx.userInput.data ++ (['\n', '\n'] ++
          ("Previous agent outputs:".data ++ (['\n'] ++
            (String.join (ctx.timeline.map renderEntry)).data))))) := by
      have h1 : "User input:\n".data = 'U' :: "ser input:\n".data := rfl
      have h2 : "\n".data = ['\n'] := rfl
      have h5 : "\nPrevious agent outputs:\n".data =
          '\n' :: ("Previous agent outputs:".data ++ ['\n']) := rfl
      simp [String.data_append, h1, h2, h5]
    rw [hdata]
    unfold jsTrim
    rw [List.dropWhile_cons]
    simp only [show wsChar 'U' = false from by decide, Bool.false_eq_true, if_false]
    have hshape : ('U' :: ("ser input:\n".data ++ (ctx.userInput.data ++ (['\n', '\n'] ++
          ("Previous agent outputs:".data ++ (['\n'] ++
            (String.join (ctx.timeline.map renderEntry)).data)))))) =
        (('U' :: ("ser input:\n".data ++ (ctx.userInput.data ++ ['\n', '\n']))) ++
          "Previous agent outputs:".data) ++
          (['\n'] ++ (String.join (ctx.timeline.map renderEntry)).data) := by
      simp [List.append_assoc]
    rw [hshape]
    have hdash : '-' ∈ ['\n'] ++ (String.join (ctx.timeline.map renderEntry)).data := by
      exact List.mem_append_right _ (dash_mem_blocks ctx.timeline h)
    have hBne : trimRight (['\n'] ++ (String.join (ctx.timeline.map renderEntry)).data)
        ≠ [] := trimRight_ne_nil_of_mem _ '-' hdash (by decide)
    rw [trimRight_append_of_ne_nil _ _ hBne]
    simp only [ContainsInOrder]
    refine ⟨'U' :: ("ser input:\n".data ++ (ctx.userInput.data ++ ['\n', '\n'])),
      trimRight (['\n'] ++ (String.join (ctx.timeline.map renderEntry)).data), ?_, ?_⟩
    · simp [List.append_assoc]
    · exact cio_blocks ctx.timeline h ['\n']

/-- Counterexample to C8 as stated: with the empty timeline and the user
input `"x "` (trailing space), the user prompt is `"User input:\nx"` —
the builder's final `.trim()` removes the trailing whitespace, so the
prompt does not contain the user input verbatim. -/
theorem buildPrompt_trailing_whitespace_counterexample :
    (buildPrompt ⟨"a1", "ro", "go", []⟩ ⟨"x ", [], []⟩).user = "User input:\nx" ∧
    containsSubB (buildPrompt ⟨"a1", "ro", "go", []⟩ ⟨"x ", [], []⟩).user.data
      "x ".data = false := by
  constructor
  · decide
  · decide

/-- Witness for C8: the empty-timeline prompt contains the (trim-stable)
user input, and a one-record timeline renders the prior-output section
with the record's header and output in order. -/
theorem buildPrompt_renders_witness :
    ContainsInOrder (buildPrompt ⟨"a", "r", "g", []⟩ ⟨"hi", [], []⟩).user.data
      [trimRight "hi".data] ∧
    ContainsInOrder
      (buildPrompt ⟨"a", "r", "g", []⟩
        ⟨"hi", [], [⟨"A", "rA", "out1", 0, 0⟩]⟩).user.data
      ("Previous agent outputs:".data :: recordNeedles [⟨"A", "rA", "out1", 0, 0⟩]) :=
  ⟨((buildPrompt_renders ⟨"a", "r", "g", []⟩ ⟨"hi", [], []⟩).1 rfl).2,
   (buildPrompt_renders ⟨"a", "r", "g", []⟩
      ⟨"hi", [], [⟨"A", "rA", "out1", 0, 0⟩]⟩).2 (List.cons_ne_nil _ _)⟩

end SpindleFlow
